import Mathlib

/-!
# Hello-CPP: object model demo and memory model demo

A verification development for the two teaching modules of the repository:

* `ClassesAndObjects.cpp`: the class `Player` (constructor, `Move`) and the
  entry point `HelloClasses`;
* `PointersAndReferences.cpp`: `IncrementByValue`, `IncrementByReference`,
  `HelloPointers` and `HelloReferences`.

Conventions of the embedding

* `int` is a 32-bit two's-complement integer, carried by `Int`; `x++` wraps
  modulo `2^32` (`wrapInt`).
* `float` is IEEE-754 binary32 with round-to-nearest, ties-to-even, and float
  expressions are evaluated in `float` precision.  A value is a rational
  number, an infinity or a NaN (`Float32`); every arithmetic operation rounds
  its exact result with `roundF32`.  The sign of a zero is not tracked: no
  operation used by the program can observe it.
* Converting a `float` to `int` truncates toward zero and has no defined
  result when the truncated value does not fit an `int`; such conversions
  return `none` (`toInt`, `Player.Move`).  The method as it executes has no
  failing path: there the conversion delivers some `int` chosen by the platform
  (`toIntOn`, `Player.MoveOn`), on x86-64 the smallest `int`.
* A demo function is the list of its statements, each a partial transformer of
  the machine state (`Stmt`), so that the state after any number of statements
  can be inspected (`runSteps`).  A statement without a defined result (a read
  through a null pointer, a write outside a block) returns `none`.
-/

namespace HelloCPP

/-! ## Machine integers -/

/-- Largest value of a 32-bit `int`. -/
def INT_MAX : Int := 2147483647

/-- Smallest value of a 32-bit `int`. -/
def INT_MIN : Int := -2147483648

/-- Reduction of an integer into the range of a 32-bit two's-complement `int`. -/
def wrapInt (z : Int) : Int := (z + 2147483648) % 4294967296 - 2147483648

/-! ## Binary32 arithmetic -/

/-- Value of a C++ `float`: a finite rational, a signed infinity, or a NaN. -/
inductive Float32 where
  | finite (q : ℚ)
  | inf (negative : Bool)
  | nan
deriving DecidableEq

/-- Nearest integer to a rational, ties going to the even neighbour. -/
def roundHalfEven (r : ℚ) : Int :=
  let f := ⌊r⌋
  let d := r - f
  if d < 1 / 2 then f
  else if 1 / 2 < d then f + 1
  else if f % 2 = 0 then f else f + 1

/-- Exponent of the binade of a non-zero rational, clamped at the exponent of
the subnormal range. -/
def binade (q : ℚ) : Int := max (Int.log 2 |q|) (-126)

/-- Rounding of an exact result to binary32: 24 significant bits, exponents from
`-126` (subnormals included) to `127`, overflow to infinity. -/
def roundF32 (q : ℚ) : Float32 :=
  if q = 0 then Float32.finite 0
  else
    let ulp : ℚ := (2 : ℚ) ^ (binade q - 23)
    let r : ℚ := (roundHalfEven (q / ulp) : ℚ) * ulp
    if (2 : ℚ) ^ (128 : ℕ) ≤ |r| then Float32.inf (decide (q < 0)) else Float32.finite r

/-- Conversion `int → float`. -/
def ofInt (n : Int) : Float32 := roundF32 n

/-- The binary32 product. -/
def fmul : Float32 → Float32 → Float32
  | Float32.nan, _ => Float32.nan
  | _, Float32.nan => Float32.nan
  | Float32.inf s, Float32.inf t => Float32.inf (xor s t)
  | Float32.inf s, Float32.finite b =>
      if b = 0 then Float32.nan else Float32.inf (xor s (decide (b < 0)))
  | Float32.finite a, Float32.inf t =>
      if a = 0 then Float32.nan else Float32.inf (xor (decide (a < 0)) t)
  | Float32.finite a, Float32.finite b => roundF32 (a * b)

/-- The binary32 sum. -/
def fadd : Float32 → Float32 → Float32
  | Float32.nan, _ => Float32.nan
  | _, Float32.nan => Float32.nan
  | Float32.inf s, Float32.inf t => if s = t then Float32.inf s else Float32.nan
  | Float32.inf s, Float32.finite _ => Float32.inf s
  | Float32.finite _, Float32.inf t => Float32.inf t
  | Float32.finite a, Float32.finite b => roundF32 (a + b)

/-- Truncation of a rational toward zero. -/
def truncQ (q : ℚ) : Int := if 0 ≤ q then ⌊q⌋ else ⌈q⌉

/-- Conversion `float → int`: truncation toward zero, defined only when the
truncated value is an `int`. -/
def toInt : Float32 → Option Int
  | Float32.finite q =>
      if INT_MIN ≤ truncQ q ∧ truncQ q ≤ INT_MAX then some (truncQ q) else none
  | _ => none

/-! ## `ClassesAndObjects.cpp` -/

/-- The class `Player`: a private `password`, public `x`, `y`, `speed` and a
protected `id`. -/
structure Player where
  password : String
  x : Int
  y : Int
  speed : Float32
  id : Int
deriving DecidableEq

/-- The constructor `Player(password, x, y, speed, id)` with its initializer
list `password(password), x(x), y(y), speed(speed), id(id)` and empty body. -/
def Player.Construct (password : String) (x y : Int) (speed : Float32) (id : Int) : Player :=
  { password := password, x := x, y := y, speed := speed, id := id }

/-- The compound assignment `c += a * speed` on an `int` lvalue `c` with an
`int` operand `a`: both ints are converted to `float`, the product and the sum
are taken in `float`, and the sum is converted back to `int`. -/
def addScaled (c a : Int) (speed : Float32) : Option Int :=
  toInt (fadd (ofInt c) (fmul (ofInt a) speed))

/-- The method `Player::Move`: `x += xa * speed; y += ya * speed;`. -/
def Player.Move (p : Player) (xa ya : Int) : Option Player := do
  let x ← addScaled p.x xa p.speed
  let p1 := { p with x := x }
  let y ← addScaled p1.y ya p1.speed
  some { p1 with y := y }

/-- Conversion `float → int` as it executes: the truncation toward zero when
that is an `int`, and otherwise, where the language defines no value, the `int`
that the conversion of the platform delivers for this operand. -/
def toIntOn (platform : Float32 → Int) (f : Float32) : Int :=
  match toInt f with
  | some n => n
  | none => platform f

/-- The compound assignment `c += a * speed` as it executes: the same
conversions, product and sum as `addScaled`, with the conversion back to `int`
of the platform. -/
def addScaledOn (platform : Float32 → Int) (c a : Int) (speed : Float32) : Int :=
  toIntOn platform (fadd (ofInt c) (fmul (ofInt a) speed))

/-- The method `Player::Move` as it executes, `x += xa * speed; y += ya * speed;`:
two assignments and no failing path, so it returns for every player and every
pair of ints. -/
def Player.MoveOn (platform : Float32 → Int) (p : Player) (xa ya : Int) : Player :=
  let p1 := { p with x := addScaledOn platform p.x xa p.speed }
  { p1 with y := addScaledOn platform p1.y ya p1.speed }

/-- The conversion of x86-64 (`cvttss2si`): the smallest `int` for every operand
whose truncation is not an `int`. -/
def x86Conversion : Float32 → Int := fun _ => INT_MIN

/-- A floating literal such as `1.5f`: the decimal value rounded to binary32. -/
def floatLiteral (q : ℚ) : Float32 := roundF32 q

/-! ## Console output and memory -/

/-- Address held by a pointer: `nullptr` (also the literal `0`), the address of
an automatic variable, or the address of byte `off` of a heap block. -/
inductive Ptr where
  | null
  | stack (a : Nat)
  | heap (block : Nat) (off : Nat)
deriving DecidableEq

/-- Value of an expression: an `int`, a pointer of any pointee type, or a `char`
given by its code. -/
inductive Val where
  | int (n : Int)
  | ptr (p : Ptr)
  | chr (c : Nat)
deriving DecidableEq

/-- Item inserted into `std::cout`: a string literal, an `int`, a `char`, a
pointer (printed as an address) or `std::endl`. -/
inductive Out where
  | text (s : String)
  | int (n : Int)
  | chr (c : Nat)
  | addr (p : Ptr)
  | endl
deriving DecidableEq

/-- What `operator<<` prints for a value. -/
def Out.ofVal : Val → Out
  | Val.int n => Out.int n
  | Val.ptr p => Out.addr p
  | Val.chr c => Out.chr c

/-- State of the abstract machine running the memory demo.
`vars` gives the names in scope with the stack address each one denotes (a
reference shares the address of the variable it is bound to); `stack` is
automatic storage, an address being a position; `heap` lists the blocks
obtained from `new[]`, a block being `none` once released and a byte being
`none` while indeterminate; `out` is what has been written to `std::cout`. -/
structure Machine where
  vars : List (String × Nat)
  stack : List Val
  heap : List (Option (List (Option Nat)))
  out : List Out
deriving DecidableEq

/-- The machine at the entry of a demo function. -/
def Machine.init : Machine := { vars := [], stack := [], heap := [], out := [] }

/-- Stack address denoted by a name in scope. -/
def Machine.lookup (m : Machine) (name : String) : Option Nat :=
  match m.vars.find? (fun b => b.1 == name) with
  | some b => some b.2
  | none => none

/-- Read through a pointer.  Reading through a null pointer, a released block,
out of bounds or from an indeterminate byte has no result. -/
def Machine.load (m : Machine) : Ptr → Option Val
  | Ptr.null => none
  | Ptr.stack a => m.stack[a]?
  | Ptr.heap b off =>
      match m.heap[b]? with
      | some (some bytes) =>
          match bytes[off]? with
          | some (some c) => some (Val.chr c)
          | _ => none
      | _ => none

/-- Write a value into an automatic variable through its address. -/
def Machine.store (m : Machine) (p : Ptr) (v : Val) : Option Machine :=
  match p with
  | Ptr.stack a =>
      if a < m.stack.length then some { m with stack := m.stack.set a v } else none
  | _ => none

/-- Write one byte into a live heap block. -/
def Machine.storeByte (m : Machine) (p : Ptr) (c : Nat) : Option Machine :=
  match p with
  | Ptr.heap b off =>
      match m.heap[b]? with
      | some (some bytes) =>
          if off < bytes.length then
            some { m with heap := m.heap.set b (some (bytes.set off (some c))) }
          else none
      | _ => none
  | _ => none

/-- An rvalue expression. -/
abbrev Expr := Machine → Option Val

/-- An lvalue expression: it designates a storage location. -/
abbrev LExpr := Machine → Option Ptr

/-- A statement. -/
abbrev Stmt := Machine → Option Machine

/-- Run statements in sequence. -/
def run : List Stmt → Machine → Option Machine
  | [], m => some m
  | s :: rest, m =>
      match s m with
      | some m1 => run rest m1
      | none => none

/-- State reached after the first `k` statements of a function body. -/
def runSteps (k : Nat) (body : List Stmt) : Option Machine := run (body.take k) Machine.init

/-- A literal. -/
def lit (v : Val) : Expr := fun _ => some v

/-- A name used as an lvalue. -/
def lvar (name : String) : LExpr := fun m =>
  match m.lookup name with
  | some a => some (Ptr.stack a)
  | none => none

/-- The lvalue `*e`. -/
def lderef (e : Expr) : LExpr := fun m =>
  match e m with
  | some (Val.ptr p) => some p
  | _ => none

/-- Lvalue-to-rvalue conversion: the value stored at the location. -/
def rval (l : LExpr) : Expr := fun m =>
  match l m with
  | some p => m.load p
  | none => none

/-- The value of a variable (or of the variable a reference is bound to). -/
def var (name : String) : Expr := rval (lvar name)

/-- The value `*e`. -/
def deref (e : Expr) : Expr := rval (lderef e)

/-- The address `&l`. -/
def addrOf (l : LExpr) : Expr := fun m =>
  match l m with
  | some p => some (Val.ptr p)
  | none => none

/-- A pointer cast such as `(double*)e`: the address is unchanged. -/
def cast (e : Expr) : Expr := e

/-- Value of a multi-character literal such as `'a: '`: an `int` made of the
character codes in base 256 (implementation-defined; the usual choice). -/
def multichar (s : String) : Int :=
  s.toList.foldl (fun acc c => acc * 256 + (c.toNat : Int)) 0

/-- A character literal such as `'A'`, by its code. -/
def charCode (c : Char) : Int := c.toNat

/-- Declaration `T name = e;` of an automatic variable. -/
def declare (name : String) (e : Expr) : Stmt := fun m =>
  match e m with
  | some v => some { m with vars := (name, m.stack.length) :: m.vars, stack := m.stack ++ [v] }
  | none => none

/-- Declaration `T& name = l;` of a reference. -/
def declareRef (name : String) (l : LExpr) : Stmt := fun m =>
  match l m with
  | some (Ptr.stack a) => some { m with vars := (name, a) :: m.vars }
  | _ => none

/-- Assignment `l = e;`. -/
def assign (l : LExpr) (e : Expr) : Stmt := fun m =>
  match l m, e m with
  | some p, some v => m.store p v
  | _, _ => none

/-- The statement `l++;` on an `int` lvalue. -/
def postIncrement (l : LExpr) : Stmt := fun m =>
  match l m with
  | some p =>
      match m.load p with
      | some (Val.int n) => m.store p (Val.int (wrapInt (n + 1)))
      | _ => none
  | none => none

/-- A string literal inserted into `std::cout`. -/
def str (s : String) : Machine → Option Out := fun _ => some (Out.text s)

/-- An expression inserted into `std::cout`. -/
def val (e : Expr) : Machine → Option Out := fun m =>
  match e m with
  | some v => some (Out.ofVal v)
  | none => none

/-- The manipulator `std::endl`. -/
def endl : Machine → Option Out := fun _ => some Out.endl

/-- Evaluate the operands of a chain of `<<`. -/
def evalItems (m : Machine) : List (Machine → Option Out) → Option (List Out)
  | [] => some []
  | i :: rest =>
      match i m, evalItems m rest with
      | some o, some os => some (o :: os)
      | _, _ => none

/-- The statement `std::cout << i1 << i2 << ...;`. -/
def print (items : List (Machine → Option Out)) : Stmt := fun m =>
  match evalItems m items with
  | some os => some { m with out := m.out ++ os }
  | none => none

/-- Declaration `char* name = new char[n];`: a fresh block of `n` indeterminate
bytes and a variable holding its address. -/
def declareNew (name : String) (n : Nat) : Stmt := fun m =>
  some { m with
    vars := (name, m.stack.length) :: m.vars
    stack := m.stack ++ [Val.ptr (Ptr.heap m.heap.length 0)]
    heap := m.heap ++ [some (List.replicate n none)] }

/-- Byte-by-byte fill of `n` bytes starting at byte `off` of block `b`. -/
def fillBytes (b : Nat) (c : Nat) : Nat → Nat → Machine → Option Machine
  | 0, _, m => some m
  | n + 1, off, m =>
      match m.storeByte (Ptr.heap b off) c with
      | some m1 => fillBytes b c n (off + 1) m1
      | none => none

/-- Modelled from the spec: the C library routine `memset` is called by
`HelloPointers` but is not part of the repository; it is taken with its library
contract, "fill every byte with a single given value": the value is converted to
`unsigned char` and stored into each of the first `n` bytes at `dst`. -/
def memset (dst : Expr) (c : Int) (n : Nat) : Stmt := fun m =>
  match dst m with
  | some (Val.ptr (Ptr.heap b off)) => fillBytes b (c % 256).toNat n off m
  | _ => none

/-- The statement `delete[] e;`: releases the block whose start `e` points to. -/
def deleteArray (e : Expr) : Stmt := fun m =>
  match e m with
  | some (Val.ptr (Ptr.heap b 0)) =>
      match m.heap[b]? with
      | some (some _) => some { m with heap := m.heap.set b none }
      | _ => none
  | _ => none

/-- Call of a function `void f(int param) { body }`: the argument is copied into
a fresh automatic variable of the callee, which is destroyed on return. -/
def callByValue (param : String) (body : List Stmt) (arg : Expr) : Stmt := fun m =>
  match arg m with
  | some (Val.int n) =>
      match run body { m with vars := [(param, m.stack.length)], stack := m.stack ++ [Val.int n] } with
      | some r => some { r with vars := m.vars, stack := r.stack.take m.stack.length }
      | none => none
  | _ => none

/-- Call of a function `void f(int& param) { body }`: the parameter is bound to
the storage of the argument. -/
def callByReference (param : String) (body : List Stmt) (arg : LExpr) : Stmt := fun m =>
  match arg m with
  | some (Ptr.stack a) =>
      match run body { m with vars := [(param, a)] } with
      | some r => some { r with vars := m.vars, stack := r.stack.take m.stack.length }
      | none => none
  | _ => none

/-! ## `PointersAndReferences.cpp` -/

/-- The function `void IncrementByValue(int x) { x++; }`. -/
def IncrementByValue (arg : Expr) : Stmt :=
  callByValue "x" [postIncrement (lvar "x")] arg

/-- The function `void IncrementByReference(int& x) { x++; }`. -/
def IncrementByReference (arg : LExpr) : Stmt :=
  callByReference "x" [postIncrement (lvar "x")] arg

/-- The body of `HelloPointers`, one entry per statement. -/
def HelloPointers : List Stmt :=
  [ declare "ptr" (lit (Val.ptr Ptr.null)),
    print [str "ptr: ", val (var "ptr"), endl],
    declare "invalid_ptr" (lit (Val.ptr Ptr.null)),
    declare "num" (lit (Val.int 8)),
    declare "num_ptr" (addrOf (lvar "num")),
    print [str "num_ptr: ", val (var "num_ptr"), endl],
    declare "casted_num_ptr" (cast (addrOf (lvar "num"))),
    print [str "casted_num_ptr: ", val (var "casted_num_ptr"), endl],
    declare "double_ptr" (addrOf (lvar "ptr")),
    print [str "double_ptr: ", val (var "double_ptr"), endl],
    print [str "Dereferenced double_ptr: ", val (deref (var "double_ptr")), endl],
    print [str "Dereferenced num_ptr: ", val (deref (var "num_ptr")), endl],
    postIncrement (lderef (var "num_ptr")),
    print [str "Changed dereferenced num_ptr: ", val (deref (var "num_ptr")), endl],
    declareNew "buffer" 8,
    memset (var "buffer") (charCode 'A') 8,
    print [str "Heap-allocated char: ", val (deref (var "buffer")), endl],
    deleteArray (var "buffer") ]

/-- The body of `HelloReferences`, one entry per statement. -/
def HelloReferences : List Stmt :=
  [ declare "a" (lit (Val.int 5)),
    declareRef "ref" (lvar "a"),
    print [str "ref: ", val (var "ref"), str " = ", val (lit (Val.int (multichar "a: "))),
      val (var "a"), endl],
    print [str "ref address: ", val (addrOf (lvar "ref")), str " = ", str "a address :",
      val (addrOf (lvar "a")), endl],
    assign (lvar "ref") (lit (Val.int 2)),
    print [str "ref: ", val (var "ref"), str " = ", val (lit (Val.int (multichar "a: "))),
      val (var "a"), endl],
    declare "increment_me" (lit (Val.int 1)),
    IncrementByValue (var "increment_me"),
    print [val (var "increment_me"), endl],
    IncrementByReference (lvar "increment_me"),
    print [val (var "increment_me"), endl] ]

/-! ## `HelloClasses` -/

/-- Observable event of a run of `HelloClasses`: a `Player` object is
instantiated, `Player::Move` is invoked, or an item is written to `std::cout`. -/
inductive Event where
  | construct (p : Player)
  | move (xa ya : Int)
  | print (o : Out)
deriving DecidableEq

/-- The function `HelloClasses`, as the sequence of events of its run. -/
def HelloClasses : Option (List Event) := do
  let TheLegend27 := Player.Construct "Password123" 5 5 (floatLiteral (3 / 2)) 12345
  let t := [Event.construct TheLegend27]
  let t := t ++ [Event.print (Out.text "Before move: "), Event.print Out.endl]
  let t := t ++ [Event.print (Out.text "x: "), Event.print (Out.int TheLegend27.x),
    Event.print Out.endl]
  let t := t ++ [Event.print (Out.text "y: "), Event.print (Out.int TheLegend27.y),
    Event.print Out.endl]
  let TheLegend27 ← TheLegend27.Move 10 (-10)
  let t := t ++ [Event.move 10 (-10)]
  let t := t ++ [Event.print (Out.text "After move: "), Event.print Out.endl]
  let t := t ++ [Event.print (Out.text "x: "), Event.print (Out.int TheLegend27.x),
    Event.print Out.endl]
  let t := t ++ [Event.print (Out.text "y: "), Event.print (Out.int TheLegend27.y),
    Event.print Out.endl]
  some t

/-- Number of `Player` objects instantiated in a run. -/
def countConstruct (t : List Event) : Nat :=
  t.countP (fun e => match e with | Event.construct _ => true | _ => false)

/-- Number of invocations of `Player::Move` in a run. -/
def countMove (t : List Event) : Nat :=
  t.countP (fun e => match e with | Event.move _ _ => true | _ => false)

/-- The items written to `std::cout` in a run, in order. -/
def printed (t : List Event) : List Out :=
  t.filterMap (fun e => match e with | Event.print o => some o | _ => none)


/-! ## Exactness of binary32 rounding -/

theorem roundHalfEven_intCast (z : ℤ) : roundHalfEven (z : ℚ) = z := by
  simp [roundHalfEven]

theorem truncQ_intCast (z : ℤ) : truncQ (z : ℚ) = z := by
  simp [truncQ]

/-- Every `m * 2^k` with a 24-bit `m` and an exponent in the binary32 range is
a binary32 value: rounding leaves it unchanged. -/
theorem roundF32_exact (m k : ℤ) (hm : |m| < 16777216) (hk1 : -149 ≤ k) (hk2 : k ≤ 104) :
    roundF32 ((m : ℚ) * 2 ^ k) = Float32.finite ((m : ℚ) * 2 ^ k) := by
  by_cases h0 : m = 0
  · subst h0; simp [roundF32]
  have hmq : (m : ℚ) ≠ 0 := by exact_mod_cast h0
  have h2k : (0 : ℚ) < 2 ^ k := zpow_pos (by norm_num) k
  have hq : (m : ℚ) * 2 ^ k ≠ 0 := mul_ne_zero hmq h2k.ne'
  have habs : |(m : ℚ) * 2 ^ k| = |(m : ℚ)| * 2 ^ k := by
    rw [abs_mul, abs_of_pos h2k]
  have hmlt : |(m : ℚ)| < 2 ^ (24 : ℤ) := by
    have : |(m : ℚ)| < 16777216 := by exact_mod_cast hm
    norm_num
    exact this
  have hlog : Int.log 2 |(m : ℚ) * 2 ^ k| < 24 + k := by
    apply (Int.lt_zpow_iff_log_lt (b := 2) (by norm_num) (abs_pos.mpr hq)).mp
    rw [habs]
    have h3 : ((2 : ℕ) : ℚ) ^ (24 + k) = 2 ^ (24 : ℤ) * 2 ^ k := by
      rw [Nat.cast_ofNat, zpow_add₀ (by norm_num)]
    rw [h3]
    exact mul_lt_mul_of_pos_right hmlt h2k
  have hue : binade ((m : ℚ) * 2 ^ k) - 23 ≤ k := by
    unfold binade
    have := max_le (show Int.log 2 |(m : ℚ) * 2 ^ k| ≤ k + 23 by omega)
      (show (-126 : ℤ) ≤ k + 23 by omega)
    omega
  obtain ⟨d, hd⟩ : ∃ d : ℕ, k = binade ((m : ℚ) * 2 ^ k) - 23 + d :=
    ⟨(k - (binade ((m : ℚ) * 2 ^ k) - 23)).toNat, by omega⟩
  have hsmall : ¬ (2 : ℚ) ^ (128 : ℕ) ≤ |(m : ℚ) * 2 ^ k| := by
    rw [habs, not_le]
    have h4 : (2 : ℚ) ^ k ≤ 2 ^ (104 : ℤ) := zpow_le_zpow_right₀ (by norm_num) hk2
    have h5 : (2 : ℚ) ^ (128 : ℕ) = 2 ^ (24 : ℤ) * 2 ^ (104 : ℤ) := by norm_num
    rw [h5]
    exact mul_lt_mul hmlt h4 h2k (by positivity)
  unfold roundF32
  rw [if_neg hq]
  simp only []
  generalize binade ((m : ℚ) * 2 ^ k) - 23 = ue at hd hue ⊢
  have hdiv : (m : ℚ) * 2 ^ k / 2 ^ ue = ((m * 2 ^ d : ℤ) : ℚ) := by
    rw [hd, zpow_add₀ (by norm_num), zpow_natCast]
    push_cast
    field_simp
    ring
  have hr : ((m * 2 ^ d : ℤ) : ℚ) * 2 ^ ue = (m : ℚ) * 2 ^ k := by
    rw [hd, zpow_add₀ (by norm_num), zpow_natCast]
    push_cast
    ring
  rw [hdiv, roundHalfEven_intCast, hr, if_neg hsmall]

/-- Rounding is the identity on a rational given in the form `m * 2^k`. -/
theorem roundF32_of_eq {q : ℚ} (m k : ℤ) (hq : q = (m : ℚ) * 2 ^ k) (hm : |m| < 16777216)
    (hk1 : -149 ≤ k) (hk2 : k ≤ 104) : roundF32 q = Float32.finite q := by
  rw [hq]
  exact roundF32_exact m k hm hk1 hk2

/-- Integers of magnitude below `2^24` are binary32 values. -/
theorem roundF32_intCast (n : ℤ) (hn : |n| < 16777216) :
    roundF32 (n : ℚ) = Float32.finite n :=
  roundF32_of_eq n 0 (by simp) hn (by norm_num) (by norm_num)

theorem ofInt_exact (n : ℤ) (hn : |n| < 16777216) : ofInt n = Float32.finite n :=
  roundF32_intCast n hn

theorem toInt_intCast (n : ℤ) (h1 : INT_MIN ≤ n) (h2 : n ≤ INT_MAX) :
    toInt (Float32.finite n) = some n := by
  simp [toInt, truncQ_intCast, h1, h2]

/-- When the binary32 product is a whole number `k` and the operands and the sum
are below `2^24` in magnitude, the compound assignment adds exactly `k`. -/
theorem addScaled_exact (c a k : ℤ) (s : Float32) (hk : fmul (ofInt a) s = Float32.finite k)
    (hc : |c| < 16777216) (hs : |c + k| < 16777216) : addScaled c a s = some (c + k) := by
  unfold addScaled
  rw [hk, ofInt_exact c hc]
  have hsum : fadd (Float32.finite c) (Float32.finite k) = Float32.finite ((c + k : ℤ) : ℚ) := by
    show roundF32 ((c : ℚ) + (k : ℚ)) = _
    rw [← Int.cast_add]
    exact roundF32_intCast (c + k) hs
  rw [hsum]
  apply toInt_intCast
  · have := abs_lt.mp hs
    unfold INT_MIN
    omega
  · have := abs_lt.mp hs
    unfold INT_MAX
    omega

/-- The literal `1.5f` is exactly three halves. -/
theorem floatLiteral_three_halves : floatLiteral (3 / 2) = Float32.finite (3 / 2) :=
  roundF32_of_eq 3 (-1) (by norm_num) (by norm_num) (by norm_num) (by norm_num)

/-- The product `10 * 1.5f` is `15`. -/
theorem fmul_ten_three_halves : fmul (ofInt 10) (floatLiteral (3 / 2)) = Float32.finite (15 : ℤ) := by
  rw [ofInt_exact 10 (by norm_num), floatLiteral_three_halves]
  show roundF32 (((10 : ℤ) : ℚ) * (3 / 2)) = _
  have h : ((10 : ℤ) : ℚ) * (3 / 2) = ((15 : ℤ) : ℚ) := by norm_num
  rw [h]
  exact roundF32_intCast 15 (by norm_num)

/-- The product `-10 * 1.5f` is `-15`. -/
theorem fmul_neg_ten_three_halves :
    fmul (ofInt (-10)) (floatLiteral (3 / 2)) = Float32.finite (-15 : ℤ) := by
  rw [ofInt_exact (-10) (by norm_num), floatLiteral_three_halves]
  show roundF32 (((-10 : ℤ) : ℚ) * (3 / 2)) = _
  have h : ((-10 : ℤ) : ℚ) * (3 / 2) = ((-15 : ℤ) : ℚ) := by norm_num
  rw [h]
  exact roundF32_intCast (-15) (by norm_num)

/-- The move of `HelloClasses`, for any password and id: from `(5, 5)` with speed
`1.5f`, `Move(10, -10)` leads to `(20, -10)`. -/
theorem Move_five_five (pw : String) (id : Int) :
    (Player.Construct pw 5 5 (floatLiteral (3 / 2)) id).Move 10 (-10)
      = some (Player.Construct pw 20 (-10) (floatLiteral (3 / 2)) id) := by
  have hx := addScaled_exact 5 10 15 _ fmul_ten_three_halves (by norm_num) (by norm_num)
  have hy := addScaled_exact 5 (-10) (-15) _ fmul_neg_ten_three_halves (by norm_num) (by norm_num)
  simp only [Player.Move, Player.Construct, hx, hy]
  rfl


/-- The binade of a rational lying between two consecutive powers of two. -/
theorem binade_eq (q : ℚ) (e : ℤ) (hq : q ≠ 0) (h1 : (2 : ℚ) ^ e ≤ |q|)
    (h2 : |q| < (2 : ℚ) ^ (e + 1)) (he : -126 ≤ e) : binade q = e := by
  have hpos : 0 < |q| := abs_pos.mpr hq
  have hlo : e ≤ Int.log 2 |q| :=
    (Int.zpow_le_iff_le_log (b := 2) (by norm_num) hpos).mp (by simpa using h1)
  have hhi : Int.log 2 |q| < e + 1 :=
    (Int.lt_zpow_iff_log_lt (b := 2) (by norm_num) hpos).mp (by simpa using h2)
  unfold binade
  rw [max_eq_left (by omega)]
  omega

/-- A rational strictly within half a unit of an integer rounds to it. -/
theorem roundHalfEven_eq (r : ℚ) (z : ℤ) (h1 : (z : ℚ) - 1 / 2 < r) (h2 : r < (z : ℚ) + 1 / 2) :
    roundHalfEven r = z := by
  have hf1 : z - 1 ≤ ⌊r⌋ := Int.le_floor.mpr (by push_cast; linarith)
  have hf2 : ⌊r⌋ < z + 1 := Int.floor_lt.mpr (by push_cast; linarith)
  have hfl : ((⌊r⌋ : ℤ) : ℚ) ≤ r := Int.floor_le r
  have hfu : r < ⌊r⌋ + 1 := Int.lt_floor_add_one r
  unfold roundHalfEven
  simp only []
  rcases (show ⌊r⌋ = z ∨ ⌊r⌋ = z - 1 by omega) with h | h
  · rw [h, if_pos (by linarith)]
  · rw [h] at hfu ⊢
    push_cast at hfu ⊢
    rw [if_neg (by linarith), if_pos (by linarith)]
    ring

/-- Evaluation of a rounding from the binade of the argument and the nearest
multiple of the unit in the last place. -/
theorem roundF32_eval (q : ℚ) (e z : ℤ) (hq : q ≠ 0) (h1 : (2 : ℚ) ^ e ≤ |q|)
    (h2 : |q| < (2 : ℚ) ^ (e + 1)) (he : -126 ≤ e)
    (hz1 : (z : ℚ) - 1 / 2 < q / 2 ^ (e - 23)) (hz2 : q / 2 ^ (e - 23) < (z : ℚ) + 1 / 2)
    (hfin : |(z : ℚ) * 2 ^ (e - 23)| < 2 ^ (128 : ℕ)) :
    roundF32 q = Float32.finite ((z : ℚ) * 2 ^ (e - 23)) := by
  unfold roundF32
  rw [if_neg hq]
  simp only [binade_eq q e hq h1 h2 he, roundHalfEven_eq _ z hz1 hz2, if_neg (not_le.mpr hfin)]

/-- The literal `0.7f` is `11744051 / 2^24`, slightly below seven tenths. -/
theorem floatLiteral_seven_tenths : floatLiteral (7 / 10) = Float32.finite (11744051 / 16777216) := by
  have h := roundF32_eval (7 / 10) (-1) 11744051 (by norm_num)
    (by rw [abs_of_pos (by norm_num)]; norm_num) (by rw [abs_of_pos (by norm_num)]; norm_num)
    (by norm_num) (by norm_num) (by norm_num) (by rw [abs_of_pos (by norm_num)]; norm_num)
  unfold floatLiteral
  rw [h]
  norm_num

/-- Rounding is observable below the overflow range: from `x = 0` with speed
`0.7f`, `Move(10, 0)` leads to `x = 7` (the binary32 product of `10` and `0.7f` is
`7`), while the exact sum `0 + 10 * 0.7f` is below `7` and truncates to `6`. -/
theorem Move_rounds_product :
    (Player.Construct "P" 0 0 (floatLiteral (7 / 10)) 12345).Move 10 0
        = some (Player.Construct "P" 7 0 (floatLiteral (7 / 10)) 12345)
      ∧ truncQ ((0 : ℚ) + 10 * (11744051 / 16777216)) = 6 := by
  have h10 : ofInt 10 = Float32.finite 10 := by simpa using ofInt_exact 10 (by norm_num)
  have hp : fmul (ofInt 10) (floatLiteral (7 / 10)) = Float32.finite ((7 : ℤ) : ℚ) := by
    rw [h10, floatLiteral_seven_tenths]
    show roundF32 (10 * (11744051 / 16777216)) = _
    have h := roundF32_eval (10 * (11744051 / 16777216)) 2 14680064 (by norm_num)
      (by rw [abs_of_pos (by norm_num)]; norm_num) (by rw [abs_of_pos (by norm_num)]; norm_num)
      (by norm_num) (by norm_num) (by norm_num) (by rw [abs_of_pos (by norm_num)]; norm_num)
    rw [h]
    norm_num
  have hp0 : fmul (ofInt 0) (floatLiteral (7 / 10)) = Float32.finite ((0 : ℤ) : ℚ) := by
    rw [ofInt_exact 0 (by norm_num), floatLiteral_seven_tenths]
    show roundF32 (((0 : ℤ) : ℚ) * (11744051 / 16777216)) = _
    simp [roundF32]
  have hx := addScaled_exact 0 10 7 _ hp (by norm_num) (by norm_num)
  have hy := addScaled_exact 0 0 0 _ hp0 (by norm_num) (by norm_num)
  constructor
  · simp only [Player.Move, Player.Construct, hx, hy]
    rfl
  · unfold truncQ
    rw [if_pos (by norm_num), Int.floor_eq_iff]
    norm_num

/-- Truncation moves toward zero by less than one unit. -/
theorem truncQ_toward_zero (q : ℚ) : |(truncQ q : ℚ)| ≤ |q| ∧ |q - truncQ q| < 1 := by
  unfold truncQ
  by_cases h : 0 ≤ q
  · rw [if_pos h]
    have h1 : ((⌊q⌋ : ℤ) : ℚ) ≤ q := Int.floor_le q
    have h2 : q < ⌊q⌋ + 1 := Int.lt_floor_add_one q
    have h3 : (0 : ℚ) ≤ ⌊q⌋ := by exact_mod_cast Int.floor_nonneg.mpr h
    rw [abs_of_nonneg h3, abs_of_nonneg h, abs_of_nonneg (by linarith)]
    constructor <;> linarith
  · rw [if_neg h]
    have hq : q < 0 := not_le.mp h
    have h1 : q ≤ ((⌈q⌉ : ℤ) : ℚ) := Int.le_ceil q
    have h2 : ((⌈q⌉ : ℤ) : ℚ) < q + 1 := Int.ceil_lt_add_one q
    have h3 : ((⌈q⌉ : ℤ) : ℚ) ≤ 0 := by exact_mod_cast Int.ceil_le.mpr (by simpa using hq.le)
    rw [abs_of_nonpos h3, abs_of_neg hq, abs_of_nonpos (by linarith)]
    constructor <;> linarith

/-- The method `Move` has a result exactly when both converted sums are defined, and the
result is the player with these two coordinates. -/
theorem Move_eq_some_iff (p p' : Player) (xa ya : Int) :
    p.Move xa ya = some p' ↔
      ∃ x' y', addScaled p.x xa p.speed = some x' ∧ addScaled p.y ya p.speed = some y'
        ∧ p' = { p with x := x', y := y' } := by
  unfold Player.Move
  cases hx : addScaled p.x xa p.speed with
  | none => simp
  | some x' =>
    cases hy : addScaled p.y ya p.speed with
    | none => simp [hy]
    | some y' =>
      simp only [Option.bind_eq_bind, Option.some_bind, hy, Option.some.injEq]
      constructor
      · intro h
        exact ⟨x', y', rfl, rfl, h.symm⟩
      · rintro ⟨x2, y2, h1, h2, h3⟩
        cases h1
        cases h2
        exact h3.symm

/-! ## The claims on `ClassesAndObjects.cpp` -/

/-- C1 (counterexample). For the player constructed with `("P", 0, 0, 1.5f, 12345)`,
`Move(2000000000, 0)` has no defined result: the sum `0 + 2000000000 * 1.5`
truncates to `3000000000`, which is above the largest `int`, so `x` cannot be
left equal to it. -/
theorem Move_sum_out_of_int_range :
    (Player.Construct "P" 0 0 (floatLiteral (3 / 2)) 12345).Move 2000000000 0 = none
      ∧ truncQ ((0 : ℚ) + 2000000000 * (3 / 2)) = 3000000000
      ∧ INT_MAX < 3000000000 := by
  have h0 : ofInt 0 = Float32.finite 0 := by
    simpa using ofInt_exact 0 (by norm_num)
  have ha : ofInt 2000000000 = Float32.finite 2000000000 := by
    show roundF32 ((2000000000 : ℤ) : ℚ) = _
    have := roundF32_of_eq (q := ((2000000000 : ℤ) : ℚ)) 1953125 10 (by norm_num) (by norm_num)
      (by norm_num) (by norm_num)
    simpa using this
  have hp : fmul (ofInt 2000000000) (floatLiteral (3 / 2)) = Float32.finite 3000000000 := by
    rw [ha, floatLiteral_three_halves]
    show roundF32 (2000000000 * (3 / 2)) = _
    have := roundF32_of_eq (q := (2000000000 : ℚ) * (3 / 2)) 5859375 9 (by norm_num)
      (by norm_num) (by norm_num) (by norm_num)
    rw [this]
    norm_num
  have hs : fadd (ofInt 0) (fmul (ofInt 2000000000) (floatLiteral (3 / 2)))
      = Float32.finite 3000000000 := by
    rw [h0, hp]
    show roundF32 (0 + 3000000000) = _
    have := roundF32_of_eq (q := (0 : ℚ) + 3000000000) 5859375 9 (by norm_num)
      (by norm_num) (by norm_num) (by norm_num)
    rw [this]
    norm_num
  have ht : truncQ (3000000000 : ℚ) = 3000000000 := by
    simpa using truncQ_intCast 3000000000
  refine ⟨?_, ?_, by decide⟩
  · have hx : addScaled 0 2000000000 (floatLiteral (3 / 2)) = none := by
      unfold addScaled
      rw [hs]
      simp [toInt, ht, INT_MAX]
    simp [Player.Move, Player.Construct, hx]
  · have : (0 : ℚ) + 2000000000 * (3 / 2) = 3000000000 := by norm_num
    rw [this, ht]

/-- C1 (amended). The product and the sum of `x += xa * speed` are binary32
operations on the converted ints. Whenever the binary32 sums `x + xa * speed`
and `y + ya * speed` are finite values `vx`, `vy` whose truncations toward zero
fit an `int`, `Move(xa, ya)` leaves `x` equal to the truncation of `vx` and `y`
equal to the truncation of `vy`; and for the player constructed with
`("P", 5, 5, 1.5f, 12345)`, `Move(10, -10)` yields `x = 20` and `y = -10`. -/
theorem Move_coordinates (p : Player) (xa ya : Int) (vx vy : ℚ)
    (hx : fadd (ofInt p.x) (fmul (ofInt xa) p.speed) = Float32.finite vx)
    (hy : fadd (ofInt p.y) (fmul (ofInt ya) p.speed) = Float32.finite vy)
    (hxr : INT_MIN ≤ truncQ vx ∧ truncQ vx ≤ INT_MAX)
    (hyr : INT_MIN ≤ truncQ vy ∧ truncQ vy ≤ INT_MAX) :
    (∃ p', p.Move xa ya = some p' ∧ p'.x = truncQ vx ∧ p'.y = truncQ vy)
      ∧ ∃ q, (Player.Construct "P" 5 5 (floatLiteral (3 / 2)) 12345).Move 10 (-10) = some q
          ∧ q.x = 20 ∧ q.y = -10 := by
  constructor
  · refine ⟨{ p with x := truncQ vx, y := truncQ vy }, ?_, rfl, rfl⟩
    rw [Move_eq_some_iff]
    refine ⟨truncQ vx, truncQ vy, ?_, ?_, rfl⟩
    · unfold addScaled
      rw [hx]
      simp [toInt, hxr]
    · unfold addScaled
      rw [hy]
      simp [toInt, hyr]
  · exact ⟨_, Move_five_five "P" 12345, rfl, rfl⟩

/-- Witness for C1 (amended): the player of `HelloClasses` and `Move(10, -10)`; the
binary32 sums are `20` and `-10`. -/
theorem Move_coordinates_witness :
    (fadd (ofInt 5) (fmul (ofInt 10) (floatLiteral (3 / 2))) = Float32.finite 20
      ∧ fadd (ofInt 5) (fmul (ofInt (-10)) (floatLiteral (3 / 2))) = Float32.finite (-10)
      ∧ (INT_MIN ≤ truncQ 20 ∧ truncQ 20 ≤ INT_MAX)
      ∧ (INT_MIN ≤ truncQ (-10) ∧ truncQ (-10) ≤ INT_MAX))
      ∧ ((∃ p', (Player.Construct "Password123" 5 5 (floatLiteral (3 / 2)) 12345).Move 10 (-10)
            = some p' ∧ p'.x = truncQ 20 ∧ p'.y = truncQ (-10))
        ∧ ∃ q, (Player.Construct "P" 5 5 (floatLiteral (3 / 2)) 12345).Move 10 (-10) = some q
            ∧ q.x = 20 ∧ q.y = -10) := by
  have h5 : ofInt 5 = Float32.finite 5 := by simpa using ofInt_exact 5 (by norm_num)
  have hx : fadd (ofInt 5) (fmul (ofInt 10) (floatLiteral (3 / 2))) = Float32.finite 20 := by
    rw [h5, fmul_ten_three_halves]
    show roundF32 (5 + ((15 : ℤ) : ℚ)) = _
    have := roundF32_intCast 20 (by norm_num)
    norm_num at this ⊢
    exact this
  have hy : fadd (ofInt 5) (fmul (ofInt (-10)) (floatLiteral (3 / 2)))
      = Float32.finite (-10) := by
    rw [h5, fmul_neg_ten_three_halves]
    show roundF32 (5 + ((-15 : ℤ) : ℚ)) = _
    have := roundF32_intCast (-10) (by norm_num)
    norm_num at this ⊢
    exact this
  have t1 : truncQ (20 : ℚ) = 20 := by simpa using truncQ_intCast 20
  have t2 : truncQ (-10 : ℚ) = -10 := by simpa using truncQ_intCast (-10)
  have r1 : INT_MIN ≤ truncQ 20 ∧ truncQ 20 ≤ INT_MAX := by rw [t1]; decide
  have r2 : INT_MIN ≤ truncQ (-10) ∧ truncQ (-10) ≤ INT_MAX := by rw [t2]; decide
  exact ⟨⟨hx, hy, r1, r2⟩,
    Move_coordinates (Player.Construct "Password123" 5 5 (floatLiteral (3 / 2)) 12345) 10 (-10)
      20 (-10) hx hy r1 r2⟩


/-- C8. For every credential string (the empty one included), all integers `x`,
`y`, `id` and every speed, the constructor returns a player (it is a total
function) whose `password`, `x`, `y`, `speed` and `id` are exactly the five
arguments. -/
theorem Construct_stores_arguments (password : String) (x y : Int) (speed : Float32) (id : Int) :
    (Player.Construct password x y speed id).password = password
      ∧ (Player.Construct password x y speed id).x = x
      ∧ (Player.Construct password x y speed id).y = y
      ∧ (Player.Construct password x y speed id).speed = speed
      ∧ (Player.Construct password x y speed id).id = id
      ∧ (Player.Construct "" x y speed id).password = "" :=
  ⟨rfl, rfl, rfl, rfl, rfl, rfl⟩

/-- A defined conversion is the one every platform performs. -/
theorem toIntOn_of_some (platform : Float32 → Int) (f : Float32) (n : Int)
    (h : toInt f = some n) : toIntOn platform f = n := by
  unfold toIntOn
  rw [h]

/-- An undefined conversion delivers the smallest `int` on x86-64. -/
theorem toIntOn_x86_of_none (f : Float32) (h : toInt f = none) :
    toIntOn x86Conversion f = INT_MIN := by
  unfold toIntOn
  rw [h]
  rfl

/-- Where `Move` has a defined result, the method as it executes returns that
result, whatever the conversion of the platform. -/
theorem MoveOn_of_Move (platform : Float32 → Int) (p p' : Player) (xa ya : Int)
    (h : p.Move xa ya = some p') : p.MoveOn platform xa ya = p' := by
  obtain ⟨x', y', hx, hy, hp⟩ := (Move_eq_some_iff p p' xa ya).mp h
  unfold addScaled at hx hy
  subst hp
  simp [Player.MoveOn, addScaledOn, toIntOn, hx, hy]

/-- A player at the largest `int`: `Move(0, 0)` has no defined result, since
`2147483647` converts to the float `2147483648`; on x86-64 the call returns with
`x` the smallest `int` and `y`, password, speed and id as before. -/
theorem MoveOn_largest_int :
    (Player.Construct "Password123" 2147483647 5 (floatLiteral (3 / 2)) 12345).Move 0 0 = none
      ∧ (Player.Construct "Password123" 2147483647 5 (floatLiteral (3 / 2)) 12345).MoveOn
          x86Conversion 0 0
        = Player.Construct "Password123" INT_MIN 5 (floatLiteral (3 / 2)) 12345 := by
  have hbig : ofInt 2147483647 = Float32.finite 2147483648 := by
    show roundF32 ((2147483647 : ℤ) : ℚ) = _
    have h := roundF32_eval ((2147483647 : ℤ) : ℚ) 30 16777216 (by norm_num)
      (by rw [abs_of_pos (by norm_num)]; norm_num) (by rw [abs_of_pos (by norm_num)]; norm_num)
      (by norm_num) (by norm_num) (by norm_num) (by rw [abs_of_pos (by norm_num)]; norm_num)
    rw [h]
    norm_num
  have hp0 : fmul (ofInt 0) (floatLiteral (3 / 2)) = Float32.finite ((0 : ℤ) : ℚ) := by
    rw [ofInt_exact 0 (by norm_num), floatLiteral_three_halves]
    show roundF32 (((0 : ℤ) : ℚ) * (3 / 2)) = _
    simp [roundF32]
  have hs : fadd (ofInt 2147483647) (fmul (ofInt 0) (floatLiteral (3 / 2)))
      = Float32.finite 2147483648 := by
    rw [hbig, hp0]
    show roundF32 (2147483648 + ((0 : ℤ) : ℚ)) = _
    rw [roundF32_of_eq (q := (2147483648 : ℚ) + ((0 : ℤ) : ℚ)) 1 31 (by norm_num) (by norm_num)
      (by norm_num) (by norm_num)]
    norm_num
  have ht : truncQ (2147483648 : ℚ) = 2147483648 := by
    simpa using truncQ_intCast 2147483648
  have hx : toInt (fadd (ofInt 2147483647) (fmul (ofInt 0) (floatLiteral (3 / 2)))) = none := by
    rw [hs]
    simp [toInt, ht, INT_MAX]
  have hy : addScaled 5 0 (floatLiteral (3 / 2)) = some (5 + 0) :=
    addScaled_exact 5 0 0 _ hp0 (by norm_num) (by norm_num)
  constructor
  · simp [Player.Move, Player.Construct, addScaled, hx]
  · have ax : addScaledOn x86Conversion 2147483647 0 (floatLiteral (3 / 2)) = INT_MIN :=
      toIntOn_x86_of_none _ hx
    have ay : addScaledOn x86Conversion 5 0 (floatLiteral (3 / 2)) = 5 + 0 :=
      toIntOn_of_some x86Conversion _ (5 + 0) hy
    simp only [Player.MoveOn, Player.Construct, ax, ay, add_zero]

/-- C10. For every player and all integers `xa`, `ya`, the call `Move(xa, ya)`
returns, whatever the platform delivers for a conversion the language leaves
undefined, and the password, the speed and the id of the player are the same
after the call as before it; the player returned is the defined result of
`Move` whenever there is one. -/
theorem Move_frame (platform : Float32 → Int) (p : Player) (xa ya : Int) :
    (p.MoveOn platform xa ya).password = p.password
      ∧ (p.MoveOn platform xa ya).speed = p.speed
      ∧ (p.MoveOn platform xa ya).id = p.id
      ∧ (p.Move xa ya = none ∨ p.Move xa ya = some (p.MoveOn platform xa ya)) := by
  refine ⟨rfl, rfl, rfl, ?_⟩
  cases h : p.Move xa ya with
  | none => exact Or.inl rfl
  | some p' => exact Or.inr (by rw [MoveOn_of_Move platform p p' xa ya h])

/-- The run of `HelloClasses`. -/
theorem HelloClasses_run :
    HelloClasses = some
      [ Event.construct (Player.Construct "Password123" 5 5 (floatLiteral (3 / 2)) 12345),
        Event.print (Out.text "Before move: "), Event.print Out.endl,
        Event.print (Out.text "x: "), Event.print (Out.int 5), Event.print Out.endl,
        Event.print (Out.text "y: "), Event.print (Out.int 5), Event.print Out.endl,
        Event.move 10 (-10),
        Event.print (Out.text "After move: "), Event.print Out.endl,
        Event.print (Out.text "x: "), Event.print (Out.int 20), Event.print Out.endl,
        Event.print (Out.text "y: "), Event.print (Out.int (-10)), Event.print Out.endl ] := by
  unfold HelloClasses
  simp only [Option.bind_eq_bind, Option.pure_def, Move_five_five, Option.some_bind]
  rfl

/-- C9 (counterexample). A run of `HelloClasses` does not invoke `Move` twice. -/
theorem HelloClasses_not_two_moves :
    ¬ ∃ t, HelloClasses = some t ∧ countMove t = 2 := by
  rw [HelloClasses_run]
  rintro ⟨t, ht, h2⟩
  cases ht
  revert h2
  decide

/-- C9 (amended). `HelloClasses` instantiates exactly one `Player` and invokes
`Move` on it exactly once, printing the coordinates before the call (`5`, `5`)
and after it (`20`, `-10`). -/
theorem HelloClasses_one_player_one_move :
    ∃ t, HelloClasses = some t ∧ countConstruct t = 1 ∧ countMove t = 1
      ∧ printed t =
        [ Out.text "Before move: ", Out.endl,
          Out.text "x: ", Out.int 5, Out.endl,
          Out.text "y: ", Out.int 5, Out.endl,
          Out.text "After move: ", Out.endl,
          Out.text "x: ", Out.int 20, Out.endl,
          Out.text "y: ", Out.int (-10), Out.endl ] := by
  refine ⟨_, HelloClasses_run, ?_, ?_, ?_⟩
  · rfl
  · rfl
  · rfl


/-! ## The claims on `PointersAndReferences.cpp` -/

/-- The only name in scope in the body of the two increment functions. -/
theorem lookup_param (m : Machine) (a : Nat) :
    Machine.lookup { m with vars := [("x", a)] } "x" = some a := by
  simp [Machine.lookup]

/-- Reading a variable: its name denotes an address and the address holds a value. -/
theorem var_eq (m : Machine) (v : String) (a : Nat) (x : Val) (hv : m.lookup v = some a)
    (ha : m.stack[a]? = some x) : var v m = some x := by
  simp [var, rval, lvar, hv, Machine.load, ha]

/-- A name used as an lvalue designates the address it is bound to. -/
theorem lvar_eq (m : Machine) (v : String) (a : Nat) (hv : m.lookup v = some a) :
    lvar v m = some (Ptr.stack a) := by
  simp [lvar, hv]

/-- The statement `l++` stores the incremented value at the designated location. -/
theorem postIncrement_eq (m : Machine) (l : LExpr) (p : Ptr) (n : Int) (hl : l m = some p)
    (hn : m.load p = some (Val.int n)) :
    postIncrement l m = m.store p (Val.int (wrapInt (n + 1))) := by
  simp [postIncrement, hl, hn]

/-- C3. For every integer `n` held in a caller's variable `v`, the call
`IncrementByValue(v)` returns and leaves the caller's state as it was; in
particular `v` still holds `n`. -/
theorem IncrementByValue_leaves_argument (m : Machine) (v : String) (a : Nat) (n : Int)
    (hv : m.lookup v = some a) (ha : m.stack[a]? = some (Val.int n)) :
    ∃ m', IncrementByValue (var v) m = some m' ∧ var v m' = some (Val.int n) ∧ m' = m := by
  refine ⟨m, ?_, var_eq m v a _ hv ha, rfl⟩
  unfold IncrementByValue callByValue
  rw [var_eq m v a _ hv ha]
  simp [run, postIncrement, lvar, Machine.lookup, Machine.load, Machine.store]

/-- Witness for C3: a caller whose variable `increment_me` holds `1`. -/
theorem IncrementByValue_leaves_argument_witness :
    Machine.lookup { vars := [("increment_me", 0)], stack := [Val.int 1], heap := [], out := [] }
        "increment_me" = some 0
      ∧ ∃ m', IncrementByValue (var "increment_me")
          { vars := [("increment_me", 0)], stack := [Val.int 1], heap := [], out := [] } = some m'
        ∧ var "increment_me" m' = some (Val.int 1)
        ∧ m' = { vars := [("increment_me", 0)], stack := [Val.int 1], heap := [], out := [] } :=
  ⟨by decide,
    IncrementByValue_leaves_argument
      { vars := [("increment_me", 0)], stack := [Val.int 1], heap := [], out := [] }
      "increment_me" 0 1 (by decide) (by decide)⟩

/-- C4. For every `int` `n` below the largest `int`, held in a caller's variable
`v`, the call `IncrementByReference(v)` returns and leaves `v` equal to `n + 1`;
and the last two values printed by `HelloReferences` are `1` and then `2`. -/
theorem IncrementByReference_increments (m : Machine) (v : String) (a : Nat) (n : Int)
    (hv : m.lookup v = some a) (ha : m.stack[a]? = some (Val.int n))
    (hmin : INT_MIN ≤ n) (hmax : n < INT_MAX) :
    (∃ m', IncrementByReference (lvar v) m = some m' ∧ var v m' = some (Val.int (n + 1)))
      ∧ ∃ r, run HelloReferences Machine.init = some r
          ∧ r.out.drop 18 = [Out.int 1, Out.endl, Out.int 2, Out.endl] := by
  constructor
  · have hlt : a < m.stack.length := by
      rcases Nat.lt_or_ge a m.stack.length with h | h
      · exact h
      · rw [List.getElem?_eq_none_iff.mpr h] at ha
        cases ha
    have hw : wrapInt (n + 1) = n + 1 := by
      unfold INT_MIN at hmin
      unfold INT_MAX at hmax
      unfold wrapInt
      omega
    have hbody : run [postIncrement (lvar "x")] { m with vars := [("x", a)] }
        = some { m with vars := [("x", a)], stack := m.stack.set a (Val.int (n + 1)) } := by
      have hp := postIncrement_eq { m with vars := [("x", a)] } (lvar "x") (Ptr.stack a) n
        (lvar_eq _ "x" a (lookup_param m a)) ha
      simp [run, hp, Machine.store, hlt, hw]
    refine ⟨{ m with stack := m.stack.set a (Val.int (n + 1)) }, ?_, ?_⟩
    · unfold IncrementByReference callByReference
      rw [lvar_eq m v a hv]
      simp [hbody]
    · exact var_eq { m with stack := m.stack.set a (Val.int (n + 1)) } v a (Val.int (n + 1)) hv
        (by simp [hlt])
  · exact ⟨_, rfl, rfl⟩

/-- Witness for C4: a caller whose variable `increment_me` holds `1`. -/
theorem IncrementByReference_increments_witness :
    (INT_MIN ≤ 1 ∧ (1 : Int) < INT_MAX)
      ∧ ((∃ m', IncrementByReference (lvar "increment_me")
            { vars := [("increment_me", 0)], stack := [Val.int 1], heap := [], out := [] } = some m'
          ∧ var "increment_me" m' = some (Val.int (1 + 1)))
        ∧ ∃ r, run HelloReferences Machine.init = some r
            ∧ r.out.drop 18 = [Out.int 1, Out.endl, Out.int 2, Out.endl]) :=
  ⟨by decide,
    IncrementByReference_increments
      { vars := [("increment_me", 0)], stack := [Val.int 1], heap := [], out := [] }
      "increment_me" 0 1 (by decide) (by decide) (by decide) (by decide)⟩

/-- C5. In `HelloReferences`, from the binding of `ref` to `a` on, reading `ref`
and reading `a` give the same value after every statement, and both names
denote the same address; `a` reads `5` when `ref` is bound, and once `ref = 2`
has run `a` reads `2`. -/
theorem HelloReferences_alias :
    (∀ i : Fin 10, ∃ m x p, runSteps (i.val + 2) HelloReferences = some m
        ∧ var "ref" m = some x ∧ var "a" m = some x
        ∧ lvar "ref" m = some p ∧ lvar "a" m = some p)
      ∧ (∃ m, runSteps 2 HelloReferences = some m ∧ var "a" m = some (Val.int 5))
      ∧ (∃ m, runSteps 4 HelloReferences = some m ∧ var "a" m = some (Val.int 5))
      ∧ ∃ m, runSteps 5 HelloReferences = some m ∧ var "ref" m = some (Val.int 2)
          ∧ var "a" m = some (Val.int 2) := by
  refine ⟨?_, ⟨_, rfl, rfl⟩, ⟨_, rfl, rfl⟩, ⟨_, rfl, rfl, rfl⟩⟩
  intro i
  fin_cases i <;> exact ⟨_, _, _, rfl, rfl, rfl, rfl, rfl⟩

/-- C6. In `HelloPointers`, once the block of 8 bytes has been obtained and
`memset(buffer, 'A', 8)` has run, each of the positions `0` to `7` of the block
reads `'A'`, and the value printed after `Heap-allocated char: ` is `'A'`. -/
theorem HelloPointers_buffer_filled :
    ∃ m b, runSteps 16 HelloPointers = some m
      ∧ var "buffer" m = some (Val.ptr (Ptr.heap b 0))
      ∧ (∀ i : Fin 8, m.load (Ptr.heap b i.val) = some (Val.chr ('A').toNat))
      ∧ ∃ m', runSteps 17 HelloPointers = some m'
          ∧ m'.out = m.out ++ [Out.text "Heap-allocated char: ", Out.chr ('A').toNat, Out.endl] := by
  refine ⟨_, 0, rfl, rfl, ?_, ⟨_, rfl, rfl⟩⟩
  intro i
  fin_cases i <;> rfl

/-- C7. In `HelloPointers`, `num_ptr` holds the address of `num`; before
`(*num_ptr)++` the value read through `num_ptr` is `8`, the initial value of
`num`; after it both `num` and the value read through `num_ptr` are `9`. -/
theorem HelloPointers_write_through_pointer :
    (∃ m, runSteps 5 HelloPointers = some m ∧ var "num" m = some (Val.int 8)
        ∧ var "num_ptr" m = addrOf (lvar "num") m)
      ∧ (∃ m, runSteps 12 HelloPointers = some m ∧ var "num" m = some (Val.int 8)
        ∧ deref (var "num_ptr") m = some (Val.int 8))
      ∧ ∃ m, runSteps 13 HelloPointers = some m ∧ var "num" m = some (Val.int 9)
        ∧ deref (var "num_ptr") m = some (Val.int 9) :=
  ⟨⟨_, rfl, rfl, rfl⟩, ⟨_, rfl, rfl, rfl⟩, ⟨_, rfl, rfl, rfl⟩⟩

end HelloCPP
